import Mathlib

/-
Verification of the MasterStack layout manager (managers/MasterStackLayoutManager.py).

The manager's state is a single master window identifier (`masterId`, with the
integer 0 denoting "no master") plus an ordered double-ended sequence of stack
identifiers (`stackIds`, front = bottom of stack, back = top of stack).  Each
operation of the manager is embedded as a pure function on this state that also
returns the ordered list of compositor commands it issues.  A Python deque is
embedded as a `List` whose head is the deque's front; `append`/`pop` act on the
back, `appendleft`/`popleft` on the front, and `remove` erases the first
occurrence scanning from the front.  An operation that lets an exception escape
(an uncaught IndexError) is embedded with result `Option.none`.
-/

namespace Swlm

/-- A window identifier: a compositor-assigned integer; 0 doubles as the
"empty master slot" sentinel (`self.masterId = 0` in `__init__`). -/
abbrev WindowId := Nat

/-- The compositor commands issued via `self.con.command`, by kind and
addressed window identifier. -/
inductive Cmd : Type where
  | markAdd (targetId : WindowId)
  | moveToMark (moveId : WindowId)
  | unmark (targetId : WindowId)
  | moveLeft
  | moveUpDir
  | focus (id : WindowId)
  | swapWith (a b : WindowId)
  | resizeSet (id width : Nat)
  | splitVertical (id : WindowId)
  | splitHorizontal (id : WindowId)
  | layoutKind (id : WindowId) (kind : String)
  deriving Repr, DecidableEq

/-- The manager's logical model: master slot and stack
(`self.masterId`, `self.stackIds`). -/
structure Model where
  masterId : WindowId
  stackIds : List WindowId
  deriving Repr, DecidableEq

/-- The empty model set up by `__init__`: `masterId = 0`, `stackIds = deque([])`. -/
def initialModel : Model := ⟨0, []⟩

/-- `setMasterWidth`: issues a resize command for the current master when a
master width is configured, otherwise nothing. -/
def setMasterWidth (mw : Option Nat) (masterId : WindowId) : List Cmd :=
  match mw with
  | none => []
  | some w => [Cmd.resizeSet masterId w]

/-- `moveWindow`: the mark-based relocation triple (mark target, move source
to the mark, unmark target). -/
def moveWindow (moveId targetId : WindowId) : List Cmd :=
  [Cmd.markAdd targetId, Cmd.moveToMark moveId, Cmd.unmark targetId]

/-- `pushWindow(windowId)`: empty master → new window becomes master with no
commands; empty stack → relocate next to master, old master becomes the sole
stack element, new window becomes master; otherwise relocate next to the top of
stack, swap with master, old master is appended at the top of the stack. -/
def pushWindow (mw : Option Nat) (windowId : WindowId) (st : Model) :
    Model × List Cmd :=
  if st.masterId = 0 then
    ({ st with masterId := windowId }, [])
  else if st.stackIds = [] then
    (⟨windowId, [st.masterId]⟩,
      moveWindow windowId st.masterId ++ [Cmd.moveLeft] ++ setMasterWidth mw windowId)
  else
    (⟨windowId, st.stackIds ++ [st.masterId]⟩,
      moveWindow windowId (st.stackIds.getLastD 0) ++
        [Cmd.focus windowId, Cmd.moveUpDir, Cmd.swapWith windowId st.masterId] ++
        setMasterWidth mw windowId)

/-- `popWindow()`: empty stack → master slot becomes 0; otherwise the top of
stack is popped and promoted to master (with a focus command, and a move-left
plus master-width command when the stack stays non-empty). -/
def popWindow (mw : Option Nat) (st : Model) : Model × List Cmd :=
  if st.stackIds = [] then
    ({ st with masterId := 0 }, [])
  else
    (⟨st.stackIds.getLastD 0, st.stackIds.dropLast⟩,
      [Cmd.focus (st.stackIds.getLastD 0)] ++
        (if st.stackIds.dropLast = [] then []
         else [Cmd.moveLeft] ++ setMasterWidth mw (st.stackIds.getLastD 0)))

/-- `removeWindow(windowId)`: pop when the master is removed, otherwise erase
the first occurrence from the stack; a missing identifier raises ValueError
which is caught, leaving the model unchanged. -/
def removeWindow (mw : Option Nat) (windowId : WindowId) (st : Model) :
    Model × List Cmd :=
  if st.masterId = windowId then popWindow mw st
  else ({ st with stackIds := st.stackIds.erase windowId }, [])

/-- `setStackLayout()`: split/layout commands on the bottom of the stack when
the stack is non-empty, else on the master. -/
def setStackLayout (sl : Option String) (st : Model) : List Cmd :=
  if st.stackIds.length ≠ 0 then
    [Cmd.splitVertical (st.stackIds.headD 0),
     Cmd.layoutKind (st.stackIds.headD 0) (sl.getD "splitv")]
  else
    [Cmd.splitHorizontal st.masterId, Cmd.layoutKind st.masterId "splith"]

/-- The scan in `moveUp`: find the first index `i` with `stackIds[i]` equal to
the focused identifier and swap it with `stackIds[i+1]`; if the match is at the
last index, the access `stackIds[i+1]` raises IndexError (result `none`); if no
index matches, fall through unchanged. -/
def moveUpLoop (w : WindowId) : List WindowId → Option (List WindowId × List Cmd)
  | [] => some ([], [])
  | [x] => if x = w then none else some ([x], [])
  | x :: y :: rest =>
    if x = w then some (y :: x :: rest, [Cmd.swapWith w y])
    else (moveUpLoop w (y :: rest)).map (fun p => (x :: p.1, p.2))

/-- `moveUp()`: no focused window → log and return.  Fewer than two stack
elements, or focus on the top of stack → `stackIds.pop()` (raising IndexError
on an empty stack) and swap with the master.  Otherwise swap the focused stack
window with its neighbour nearer the top. -/
def moveUp (focused : Option WindowId) (st : Model) : Option (Model × List Cmd) :=
  match focused with
  | none => some (st, [])
  | some w =>
    if st.stackIds.length < 2 ∨ w = st.stackIds.getLastD 0 then
      if st.stackIds = [] then none
      else
        some (⟨st.stackIds.getLastD 0, st.stackIds.dropLast ++ [st.masterId]⟩,
          [Cmd.swapWith (st.stackIds.getLastD 0) st.masterId])
    else
      (moveUpLoop w st.stackIds).map (fun p => (⟨st.masterId, p.1⟩, p.2))

/-- The scan in `moveDown`: find the first index `i ≥ 1` with `stackIds[i]`
equal to the focused identifier and swap it with `stackIds[i-1]` (the method
has already returned when the focused identifier sits at index 0). -/
def moveDownLoop (w : WindowId) : List WindowId → List WindowId × List Cmd
  | [] => ([], [])
  | [x] => ([x], [])
  | x :: y :: rest =>
    if y = w then (y :: x :: rest, [Cmd.swapWith w x])
    else
      let p := moveDownLoop w (y :: rest)
      (x :: p.1, p.2)

/-- `moveDown()`: fewer than two stack elements → return; no focused window →
return; focus at the bottom of the stack → return; focus on the master → swap
master with the top of stack; otherwise swap the focused stack window with its
neighbour nearer the bottom. -/
def moveDown (focused : Option WindowId) (st : Model) : Model × List Cmd :=
  if st.stackIds.length < 2 then (st, [])
  else
    match focused with
    | none => (st, [])
    | some w =>
      if w = st.stackIds.headD 0 then (st, [])
      else if w = st.masterId then
        (⟨st.stackIds.getLastD 0, st.stackIds.dropLast ++ [w]⟩,
          [Cmd.swapWith w (st.stackIds.getLastD 0)])
      else
        let p := moveDownLoop w st.stackIds
        (⟨st.masterId, p.1⟩, p.2)

/-- `rotateCCW()`: with at least two stack elements, the top of stack is popped
and becomes master, and the previous master is pushed onto the bottom
(`appendleft`), relocated there via the mark-based move. -/
def rotateCCW (st : Model) : Model × List Cmd :=
  if st.stackIds.length < 2 then (st, [])
  else
    (⟨st.stackIds.getLastD 0, st.masterId :: st.stackIds.dropLast⟩,
      [Cmd.swapWith (st.stackIds.getLastD 0) st.masterId] ++
        moveWindow st.masterId (st.stackIds.dropLast.headD 0))

/-- `rotateCW()`: with at least two stack elements, the bottom of stack is
popped (`popleft`) and becomes master, and the previous master is appended at
the top, relocated there and the new master re-focused. -/
def rotateCW (st : Model) : Model × List Cmd :=
  if st.stackIds.length < 2 then (st, [])
  else
    (⟨st.stackIds.headD 0, st.stackIds.tail ++ [st.masterId]⟩,
      [Cmd.swapWith (st.stackIds.headD 0) st.masterId] ++
        moveWindow st.masterId (st.stackIds.tail.getLastD 0) ++
        [Cmd.focus st.masterId, Cmd.moveUpDir, Cmd.focus (st.stackIds.headD 0)])

/-- The scan in `swapMaster`: find the first index holding the focused
identifier, replace it by the current master and promote the focused
identifier to master (swap plus refocus commands); if no index matches,
fall through unchanged. -/
def swapMasterLoop (w m : WindowId) :
    List WindowId → List WindowId × WindowId × List Cmd
  | [] => ([], m, [])
  | x :: rest =>
    if x = w then (m :: rest, w, [Cmd.swapWith w m, Cmd.focus m])
    else
      let p := swapMasterLoop w m rest
      (x :: p.1, p.2.1, p.2.2)

/-- `swapMaster()`: empty stack → return; no focused window → return; focus on
the master → swap master with the top of stack; otherwise swap the focused
stack window with the master directly, refocusing the previous master. -/
def swapMaster (focused : Option WindowId) (st : Model) : Model × List Cmd :=
  if st.stackIds.length = 0 then (st, [])
  else
    match focused with
    | none => (st, [])
    | some w =>
      if w = st.masterId then
        (⟨st.stackIds.getLastD 0, st.stackIds.dropLast ++ [st.masterId]⟩,
          [Cmd.swapWith (st.stackIds.getLastD 0) st.masterId])
      else
        let p := swapMasterLoop w st.masterId st.stackIds
        (⟨p.2.1, p.1⟩, p.2.2)

/-- A window/container node of the workspace tree as the manager inspects it:
identifier, type string, whether `workspace()` resolves, the `floating`
attribute, and child nodes. -/
inductive Con : Type where
  | mk (id : Nat) (typ : String) (hasWorkspace : Bool)
       (floating : Option String) (nodes : List Con)

/-- The node's identifier (`node.id`). -/
def Con.id : Con → Nat
  | .mk i _ _ _ _ => i

/-- The node's type string (`node.type`). -/
def Con.typ : Con → String
  | .mk _ t _ _ _ => t

/-- Whether `node.workspace()` resolves to a workspace. -/
def Con.hasWorkspace : Con → Bool
  | .mk _ _ h _ _ => h

/-- The node's `floating` attribute. -/
def Con.floating : Con → Option String
  | .mk _ _ _ f _ => f

/-- The node's children (`node.nodes`). -/
def Con.nodes : Con → List Con
  | .mk _ _ _ _ n => n

/-- Whether the pattern occurs as the initial segment of the character list. -/
def charsStart : List Char → List Char → Bool
  | [], _ => true
  | _ :: _, [] => false
  | p :: ps, c :: cs => p == c && charsStart ps cs

/-- Whether the two-character pattern "on" occurs anywhere in the character
list (the Python test `"on" in window.floating`). -/
def hasOn : List Char → Bool
  | [] => false
  | c :: cs => charsStart ['o', 'n'] (c :: cs) || hasOn cs

/-- `window.floating is not None and "on" in window.floating`. -/
def floatingOn : Option String → Bool
  | none => false
  | some f => hasOn f.toList

/-- `isExcluded(window)`: absent, not a leaf "con" container, no resolvable
workspace, or floating. -/
def isExcluded : Option Con → Bool
  | none => true
  | some w =>
    if w.typ ≠ "con" then true
    else if w.hasWorkspace = false then true
    else if floatingOn w.floating then true
    else false

/-- The enumeration loop of `arrangeExistingLayout`: over the workspace's
direct children; a childless node is appended when not excluded; for a node
with children, the loop runs once per child but tests `isExcluded(node)` (the
parent) and appends `node.id` (the parent's identifier) each time. -/
def collectUntracked (nodes : List Con) : List WindowId :=
  nodes.foldl
    (fun acc node =>
      if node.nodes.length = 0 then
        if isExcluded (some node) then acc else acc ++ [node.id]
      else
        node.nodes.foldl
          (fun acc2 _ =>
            if isExcluded (some node) then acc2 else acc2 ++ [node.id])
          acc)
    []

/-- Follows the spec's words for the reconciliation enumeration (section 4.1):
in the nested branch it is each child leaf's exclusion status and the child
leaf's identifier that are used.  Kept for comparison with `collectUntracked`,
which is translated from the code. -/
def collectUntrackedSpec (nodes : List Con) : List WindowId :=
  nodes.foldl
    (fun acc node =>
      if node.nodes.length = 0 then
        if isExcluded (some node) then acc else acc ++ [node.id]
      else
        node.nodes.foldl
          (fun acc2 conNode =>
            if isExcluded (some conNode) then acc2 else acc2 ++ [conNode.id])
          acc)
    []

/-- `arrangeExistingLayout()`: enumerate, then fold every collected identifier
that is not already the master and not already in the stack into the model via
`setStackLayout`, a focus command and `pushWindow`; finally re-issue
`setStackLayout` once more. -/
def arrangeExistingLayout (mw : Option Nat) (sl : Option String)
    (nodes : List Con) (st : Model) : Model × List Cmd :=
  let folded :=
    (collectUntracked nodes).foldl
      (fun acc w =>
        if w ≠ acc.1.masterId ∧ w ∉ acc.1.stackIds then
          ((pushWindow mw w acc.1).1,
            acc.2 ++ setStackLayout sl acc.1 ++ [Cmd.focus w] ++
              (pushWindow mw w acc.1).2)
        else acc)
      (st, [])
  (folded.1, folded.2 ++ setStackLayout sl folded.1)

/-- The workspace tree used to exhibit the nested-branch defect of
`arrangeExistingLayout`: one direct child, a split container with identifier 5
holding two leaf windows, a tiled leaf 10 and a floating leaf 11. -/
def sampleLayout : List Con :=
  [Con.mk 5 "con" true none
    [Con.mk 10 "con" true none [],
     Con.mk 11 "con" true (some "user_on") []]]

/-- All identifiers recorded in the model, master first. -/
def allIds (st : Model) : List WindowId := st.masterId :: st.stackIds

/-- States reachable from the empty model by the manager's operations, with
each pushed identifier constrained by `ok` (instantiated with the true
predicate for unrestricted pushes).  A `moveUp` step exists only when the
operation returns (an escaping exception kills the event loop, so a raising
invocation yields no successor state). -/
inductive Reach (ok : WindowId → Model → Prop) : Model → Prop where
  | empty : Reach ok initialModel
  | push (st : Model) (mw : Option Nat) (w : WindowId)
      (h : Reach ok st) (hok : ok w st) : Reach ok (pushWindow mw w st).1
  | remove (st : Model) (mw : Option Nat) (w : WindowId)
      (h : Reach ok st) : Reach ok (removeWindow mw w st).1
  | pop (st : Model) (mw : Option Nat) (h : Reach ok st) :
      Reach ok (popWindow mw st).1
  | up (st st' : Model) (cs : List Cmd) (f : Option WindowId)
      (h : Reach ok st) (he : moveUp f st = some (st', cs)) : Reach ok st'
  | down (st : Model) (f : Option WindowId) (h : Reach ok st) :
      Reach ok (moveDown f st).1
  | ccw (st : Model) (h : Reach ok st) : Reach ok (rotateCCW st).1
  | cw (st : Model) (h : Reach ok st) : Reach ok (rotateCW st).1
  | swapM (st : Model) (f : Option WindowId) (h : Reach ok st) :
      Reach ok (swapMaster f st).1

end Swlm

namespace Swlm

lemma perm_snoc_cons (a b : WindowId) (l : List WindowId) :
    (a :: (l ++ [b])).Perm (b :: (l ++ [a])) :=
  ((List.perm_append_singleton b l).cons a).trans
    ((List.Perm.swap b a l).trans (((List.perm_append_singleton a l).symm).cons b))

lemma perm_cons_cons_snoc (a b : WindowId) (l : List WindowId) :
    (a :: b :: l).Perm (b :: (l ++ [a])) :=
  (List.Perm.swap b a l).trans (((List.perm_append_singleton a l).symm).cons b)

lemma moveUpLoop_perm (w : WindowId) :
    ∀ (s : List WindowId) (s' : List WindowId) (cs : List Cmd),
      moveUpLoop w s = some (s', cs) → s'.Perm s := by
  intro s
  induction s with
  | nil =>
    intro s' cs h
    simp [moveUpLoop] at h
    simp [h.1]
  | cons x tail ih =>
    cases tail with
    | nil =>
      intro s' cs h
      simp only [moveUpLoop] at h
      split at h
      · exact absurd h (by simp)
      · simp only [Option.some.injEq, Prod.mk.injEq] at h
        simp [← h.1]
    | cons y rest =>
      intro s' cs h
      simp only [moveUpLoop] at h
      split at h
      · simp only [Option.some.injEq, Prod.mk.injEq] at h
        rw [← h.1]
        exact List.Perm.swap x y rest
      · cases hm : moveUpLoop w (y :: rest) with
        | none => rw [hm] at h; simp at h
        | some p =>
          rw [hm] at h
          obtain ⟨p1, p2⟩ := p
          simp only [Option.map_some', Option.some.injEq, Prod.mk.injEq] at h
          rw [← h.1]
          exact (ih p1 p2 hm).cons x

lemma moveDownLoop_perm (w : WindowId) :
    ∀ s : List WindowId, ((moveDownLoop w s).1).Perm s := by
  intro s
  induction s with
  | nil => simp [moveDownLoop]
  | cons x tail ih =>
    cases tail with
    | nil => simp [moveDownLoop]
    | cons y rest =>
      simp only [moveDownLoop]
      split
      · exact List.Perm.swap x y rest
      · exact (ih).cons x

lemma swapMasterLoop_perm (w m : WindowId) :
    ∀ s : List WindowId,
      ((swapMasterLoop w m s).2.1 :: (swapMasterLoop w m s).1).Perm (m :: s) := by
  intro s
  induction s with
  | nil => simp [swapMasterLoop]
  | cons x rest ih =>
    simp only [swapMasterLoop]
    split
    · rename_i hx
      rw [hx]
      exact List.Perm.swap m w rest
    · refine (List.Perm.swap x _ _).trans ?_
      exact (ih.cons x).trans (List.Perm.swap m x rest)

lemma allIds_moveUp_perm (f : Option WindowId) (st st' : Model) (cs : List Cmd)
    (h : moveUp f st = some (st', cs)) : (allIds st').Perm (allIds st) := by
  obtain ⟨m, s⟩ := st
  cases f with
  | none =>
    simp only [moveUp, Option.some.injEq, Prod.mk.injEq] at h
    rw [← h.1]
  | some w =>
    simp only [moveUp] at h
    split at h
    · split at h
      · exact absurd h (by simp)
      · rename_i hne
        rcases List.eq_nil_or_concat s with rfl | ⟨ys, y, rfl⟩
        · simp at hne
        · simp only [Option.some.injEq, Prod.mk.injEq] at h
          rw [← h.1]
          simp only [allIds, List.concat_eq_append, List.getLastD_concat, List.dropLast_concat]
          exact perm_snoc_cons y m ys
    · cases hm : moveUpLoop w s with
      | none => rw [hm] at h; simp at h
      | some p =>
        rw [hm] at h
        obtain ⟨p1, p2⟩ := p
        simp only [Option.map_some', Option.some.injEq, Prod.mk.injEq] at h
        rw [← h.1]
        exact (moveUpLoop_perm w s p1 p2 hm).cons m

lemma allIds_moveDown_perm (f : Option WindowId) (st : Model) :
    (allIds (moveDown f st).1).Perm (allIds st) := by
  obtain ⟨m, s⟩ := st
  unfold moveDown
  split
  · exact List.Perm.refl _
  · rename_i hlen
    cases f with
    | none => exact List.Perm.refl _
    | some w =>
      dsimp only
      split
      · exact List.Perm.refl _
      · split
        · rename_i hw hm
          rcases List.eq_nil_or_concat s with rfl | ⟨ys, y, rfl⟩
          · simp at hlen
          · simp only [allIds, List.concat_eq_append, List.getLastD_concat, List.dropLast_concat]
            have : w = m := hm
            rw [this]
            exact perm_snoc_cons y m ys
        · exact (moveDownLoop_perm w s).cons m

lemma allIds_rotateCCW_perm (st : Model) :
    (allIds (rotateCCW st).1).Perm (allIds st) := by
  obtain ⟨m, s⟩ := st
  unfold rotateCCW
  split
  · exact List.Perm.refl _
  · rename_i hlen
    rcases List.eq_nil_or_concat s with rfl | ⟨ys, y, rfl⟩
    · simp at hlen
    · simp only [allIds, List.concat_eq_append, List.getLastD_concat, List.dropLast_concat]
      exact perm_cons_cons_snoc y m ys

lemma allIds_rotateCW_perm (st : Model) :
    (allIds (rotateCW st).1).Perm (allIds st) := by
  obtain ⟨m, s⟩ := st
  unfold rotateCW
  split
  · exact List.Perm.refl _
  · rename_i hlen
    cases s with
    | nil => simp at hlen
    | cons x xs =>
      simp only [allIds, List.headD_cons, List.tail_cons]
      exact (perm_cons_cons_snoc m x xs).symm

lemma allIds_swapMaster_perm (f : Option WindowId) (st : Model) :
    (allIds (swapMaster f st).1).Perm (allIds st) := by
  obtain ⟨m, s⟩ := st
  unfold swapMaster
  split
  · exact List.Perm.refl _
  · rename_i hlen
    cases f with
    | none => exact List.Perm.refl _
    | some w =>
      dsimp only
      split
      · rcases List.eq_nil_or_concat s with rfl | ⟨ys, y, rfl⟩
        · simp at hlen
        · simp only [allIds, List.concat_eq_append, List.getLastD_concat, List.dropLast_concat]
          exact perm_snoc_cons y m ys
      · exact swapMasterLoop_perm w m s

end Swlm

namespace Swlm

lemma nodup_allIds_pop (mw : Option Nat) (st : Model)
    (h : (allIds st).Nodup) : (allIds (popWindow mw st).1).Nodup := by
  obtain ⟨m, s⟩ := st
  unfold popWindow
  split
  · rename_i hs
    replace hs : s = [] := hs
    subst hs
    simp [allIds]
  · rename_i hs
    rcases List.eq_nil_or_concat s with rfl | ⟨ys, y, rfl⟩
    · simp at hs
    · simp only [allIds, List.concat_eq_append, List.getLastD_concat,
        List.dropLast_concat] at h ⊢
      exact (List.perm_append_singleton y ys).nodup h.of_cons

lemma nodup_allIds_push (mw : Option Nat) (w : WindowId) (st : Model)
    (h : (allIds st).Nodup) (hw1 : w ≠ st.masterId) (hw2 : w ∉ st.stackIds) :
    (allIds (pushWindow mw w st).1).Nodup := by
  obtain ⟨m, s⟩ := st
  unfold pushWindow
  split
  · exact List.nodup_cons.2 ⟨hw2, h.of_cons⟩
  · split
    · rename_i hm hs
      replace hs : s = [] := hs
      subst hs
      simp only [allIds]
      refine List.nodup_cons.2 ⟨?_, by simp⟩
      simp only [List.mem_singleton]
      exact fun hwm => hw1 hwm
    · have h1 : (w :: m :: s).Nodup := by
        refine List.nodup_cons.2 ⟨?_, h⟩
        simp only [List.mem_cons]
        rintro (rfl | hmem)
        · exact hw1 rfl
        · exact hw2 hmem
      have hp : (w :: m :: s).Perm (w :: (s ++ [m])) :=
        ((List.perm_append_singleton m s).symm).cons w
      exact hp.nodup h1

lemma reach_fresh_nodup (st : Model)
    (h : Reach (fun w st => w ≠ st.masterId ∧ w ∉ st.stackIds) st) :
    (allIds st).Nodup := by
  induction h with
  | empty => simp [allIds, initialModel]
  | push st mw w h hok ih => exact nodup_allIds_push mw w st ih hok.1 hok.2
  | remove st mw w h ih =>
    obtain ⟨m, s⟩ := st
    unfold removeWindow
    split
    · exact nodup_allIds_pop mw _ ih
    · simp only [allIds, List.nodup_cons] at ih ⊢
      exact ⟨fun hm => ih.1 (List.mem_of_mem_erase hm), ih.2.erase w⟩
  | pop st mw h ih => exact nodup_allIds_pop mw st ih
  | up st st' cs f h he ih =>
    exact ((allIds_moveUp_perm f st st' cs he).symm.nodup) ih
  | down st f h ih => exact ((allIds_moveDown_perm f st).symm.nodup) ih
  | ccw st h ih => exact ((allIds_rotateCCW_perm st).symm.nodup) ih
  | cw st h ih => exact ((allIds_rotateCW_perm st).symm.nodup) ih
  | swapM st f h ih => exact ((allIds_swapMaster_perm f st).symm.nodup) ih

/-- The strengthened invariant used for the master-non-empty claim: either the
stack is empty, or every recorded identifier (master included) is nonzero. -/
def PosInv (st : Model) : Prop :=
  st.stackIds = [] ∨ ∀ x ∈ allIds st, x ≠ 0

lemma posInv_pop (mw : Option Nat) (st : Model) (h : PosInv st) :
    PosInv (popWindow mw st).1 := by
  obtain ⟨m, s⟩ := st
  unfold popWindow
  split
  · rename_i hs
    replace hs : s = [] := hs
    subst hs
    left
    rfl
  · rename_i hs
    rcases List.eq_nil_or_concat s with rfl | ⟨ys, y, rfl⟩
    · simp at hs
    · rcases h with hnil | hall
      · simp at hnil
      · right
        intro x hx
        simp only [allIds, List.concat_eq_append, List.getLastD_concat,
          List.dropLast_concat, List.mem_cons] at hx
        rcases hx with rfl | hx
        · exact hall x (by simp [allIds])
        · exact hall x (by simp [allIds, hx])

lemma reach_pos_inv (st : Model) (h : Reach (fun w _ => w ≠ 0) st) :
    PosInv st := by
  induction h with
  | empty => left; rfl
  | push st mw w h hok ih =>
    obtain ⟨m, s⟩ := st
    unfold pushWindow
    split
    · rename_i hm
      replace hm : m = 0 := hm
      rcases ih with hnil | hall
      · replace hnil : s = [] := hnil
        subst hnil
        left
        rfl
      · exact absurd hm (hall m (by simp [allIds]))
    · rename_i hm
      replace hm : ¬m = 0 := hm
      split
      · rename_i hs
        replace hs : s = [] := hs
        subst hs
        right
        intro x hx
        simp only [allIds, List.mem_cons, List.not_mem_nil, or_false] at hx
        rcases hx with rfl | rfl
        · exact hok
        · exact hm
      · rename_i hs
        replace hs : ¬s = [] := hs
        right
        intro x hx
        simp only [allIds, List.mem_cons, List.mem_append,
          List.not_mem_nil, or_false] at hx
        rcases hx with rfl | hx | rfl
        · exact hok
        · rcases ih with hnil | hall
          · exact absurd hnil hs
          · exact hall x (by simp [allIds, hx])
        · exact hm
  | remove st mw w h ih =>
    obtain ⟨m, s⟩ := st
    unfold removeWindow
    split
    · exact posInv_pop mw _ ih
    · rcases ih with hnil | hall
      · replace hnil : s = [] := hnil
        subst hnil
        left
        rfl
      · right
        intro x hx
        simp only [allIds, List.mem_cons] at hx
        rcases hx with rfl | hx
        · exact hall x (by simp [allIds])
        · exact hall x (by simp [allIds, List.mem_of_mem_erase hx])
  | pop st mw h ih => exact posInv_pop mw st ih
  | up st st' cs f h he ih =>
    rcases ih with hnil | hall
    · obtain ⟨m, s⟩ := st
      replace hnil : s = [] := hnil
      subst hnil
      cases f with
      | none =>
        simp only [moveUp, Option.some.injEq, Prod.mk.injEq] at he
        rw [← he.1]
        left; rfl
      | some w => simp [moveUp] at he
    · right
      intro x hx
      exact hall x (((allIds_moveUp_perm f st st' cs he).mem_iff).1 hx)
  | down st f h ih =>
    rcases ih with hnil | hall
    · obtain ⟨m, s⟩ := st
      replace hnil : s = [] := hnil
      subst hnil
      left; rfl
    · right
      intro x hx
      exact hall x (((allIds_moveDown_perm f st).mem_iff).1 hx)
  | ccw st h ih =>
    rcases ih with hnil | hall
    · obtain ⟨m, s⟩ := st
      replace hnil : s = [] := hnil
      subst hnil
      left; rfl
    · right
      intro x hx
      exact hall x (((allIds_rotateCCW_perm st).mem_iff).1 hx)
  | cw st h ih =>
    rcases ih with hnil | hall
    · obtain ⟨m, s⟩ := st
      replace hnil : s = [] := hnil
      subst hnil
      left; rfl
    · right
      intro x hx
      exact hall x (((allIds_rotateCW_perm st).mem_iff).1 hx)
  | swapM st f h ih =>
    rcases ih with hnil | hall
    · obtain ⟨m, s⟩ := st
      replace hnil : s = [] := hnil
      subst hnil
      left
      cases f <;> rfl
    · right
      intro x hx
      exact hall x (((allIds_swapMaster_perm f st).mem_iff).1 hx)

end Swlm

namespace Swlm

lemma moveDownLoop_concat (w x : WindowId) (b : List WindowId) :
    ∀ a : List WindowId, w ∉ a → w ≠ x →
      moveDownLoop w (a ++ x :: w :: b) = (a ++ w :: x :: b, [Cmd.swapWith w x]) := by
  intro a
  induction a with
  | nil =>
    intro _ _
    simp [moveDownLoop]
  | cons c tail ih =>
    intro ha hx
    have hw : w ∉ tail := fun hm => ha (List.mem_cons_of_mem c hm)
    cases tail with
    | nil =>
      simp only [List.nil_append, List.cons_append, moveDownLoop]
      rw [if_neg (fun hxw : x = w => hx hxw.symm)]
      simp [moveDownLoop]
    | cons d tail2 =>
      have hd : ¬(d = w) := fun hdw => ha (by simp [hdw])
      have ih2 := ih hw hx
      simp only [List.cons_append, moveDownLoop] at ih2 ⊢
      rw [if_neg hd]
      simp only [List.append_eq]
      rw [ih2]

end Swlm

namespace Swlm

/-- C1 (counterexample): the invariant "stack non-empty implies master
non-empty" fails as stated: pushing identifier 1 and then identifier 0 from
the empty model reaches the state master = 0, stack = [1], whose stack is
non-empty while the master slot holds the empty sentinel. -/
theorem C1_counterexample :
    Reach (fun _ _ => True) ⟨0, [1]⟩ ∧
      (⟨0, [1]⟩ : Model).stackIds ≠ [] ∧ (⟨0, [1]⟩ : Model).masterId = 0 := by
  refine ⟨?_, by decide, rfl⟩
  have h1 : Reach (fun _ _ => True) (pushWindow none 1 initialModel).1 :=
    Reach.push initialModel none 1 Reach.empty trivial
  have h2 : Reach (fun _ _ => True)
      (pushWindow none 0 (pushWindow none 1 initialModel).1).1 :=
    Reach.push _ none 0 h1 trivial
  exact h2

/-- C1 (amended): for every state reachable from the empty model by the
manager's operations in which every pushed identifier is nonzero (a real
window identifier, not the sentinel), a non-empty stack implies a non-empty
master slot. -/
theorem C1_master_nonzero (st : Model) (h : Reach (fun w _ => w ≠ 0) st)
    (hne : st.stackIds ≠ []) : st.masterId ≠ 0 :=
  (reach_pos_inv st h).elim (fun h0 => absurd h0 hne)
    (fun hall => hall st.masterId (by simp [allIds]))

/-- Witness for C1 at the reachable state master = 2, stack = [1]. -/
theorem C1_master_nonzero_witness :
    Reach (fun w _ => w ≠ 0) ⟨2, [1]⟩ ∧ (⟨2, [1]⟩ : Model).masterId ≠ 0 := by
  have h1 : Reach (fun w _ => w ≠ 0) (pushWindow none 1 initialModel).1 :=
    Reach.push initialModel none 1 Reach.empty (by decide)
  have h2 : Reach (fun w _ => w ≠ 0)
      (pushWindow none 2 (pushWindow none 1 initialModel).1).1 :=
    Reach.push _ none 2 h1 (by decide)
  have h3 : Reach (fun w _ => w ≠ 0) ⟨2, [1]⟩ := h2
  exact ⟨h3, C1_master_nonzero ⟨2, [1]⟩ h3 (by decide)⟩

/-- C2 (counterexample): the exclusivity invariant fails as stated when a
window-added notification carries an identifier that is already tracked:
pushing 1, 2, then 1 again reaches master = 1 with stack = [1, 2], in which
identifier 1 is both the master and a stack element. -/
theorem C2_counterexample :
    Reach (fun _ _ => True) ⟨1, [1, 2]⟩ ∧
      (⟨1, [1, 2]⟩ : Model).masterId ∈ (⟨1, [1, 2]⟩ : Model).stackIds := by
  refine ⟨?_, by decide⟩
  have h1 : Reach (fun _ _ => True) (pushWindow none 1 initialModel).1 :=
    Reach.push initialModel none 1 Reach.empty trivial
  have h2 : Reach (fun _ _ => True)
      (pushWindow none 2 (pushWindow none 1 initialModel).1).1 :=
    Reach.push _ none 2 h1 trivial
  have h3 : Reach (fun _ _ => True)
      (pushWindow none 1
        (pushWindow none 2 (pushWindow none 1 initialModel).1).1).1 :=
    Reach.push _ none 1 h2 trivial
  exact h3

/-- C2 (amended): for every state reachable from the empty model by
notifications in which every window-added notification carries an identifier
not already tracked, every identifier appears at most once across the master
slot and the stack: the stack has no duplicates and the master is not a stack
element. -/
theorem C2_unique_ids (st : Model)
    (h : Reach (fun w st => w ≠ st.masterId ∧ w ∉ st.stackIds) st) :
    st.stackIds.Nodup ∧ st.masterId ∉ st.stackIds := by
  have hn := reach_fresh_nodup st h
  simp only [allIds, List.nodup_cons] at hn
  exact ⟨hn.2, hn.1⟩

/-- Witness for C2 at the reachable state master = 2, stack = [1]. -/
theorem C2_unique_ids_witness :
    Reach (fun w st => w ≠ st.masterId ∧ w ∉ st.stackIds) ⟨2, [1]⟩ ∧
      ([1] : List WindowId).Nodup ∧ (2 : WindowId) ∉ ([1] : List WindowId) := by
  have h1 : Reach (fun w st => w ≠ st.masterId ∧ w ∉ st.stackIds)
      (pushWindow none 1 initialModel).1 :=
    Reach.push initialModel none 1 Reach.empty (by decide)
  have h2 : Reach (fun w st => w ≠ st.masterId ∧ w ∉ st.stackIds)
      (pushWindow none 2 (pushWindow none 1 initialModel).1).1 :=
    Reach.push _ none 2 h1 (by decide)
  have h3 : Reach (fun w st => w ≠ st.masterId ∧ w ∉ st.stackIds) ⟨2, [1]⟩ := h2
  exact ⟨h3, C2_unique_ids ⟨2, [1]⟩ h3⟩

/-- C3: the five-step scenario from the spec: pushing windows 1, 2, 3 into
the empty model yields master 3 over stack [1, 2] (front = bottom), removing
the master 3 promotes 2, and removing stack window 1 leaves master 2 with an
empty stack. -/
theorem C3_scenario :
    (pushWindow none 1 initialModel).1 = ⟨1, []⟩ ∧
    (pushWindow none 2 ⟨1, []⟩).1 = ⟨2, [1]⟩ ∧
    (pushWindow none 3 ⟨2, [1]⟩).1 = ⟨3, [1, 2]⟩ ∧
    (removeWindow none 3 ⟨3, [1, 2]⟩).1 = ⟨2, [1]⟩ ∧
    (removeWindow none 1 ⟨2, [1]⟩).1 = ⟨2, []⟩ := by decide

/-- C4: after `pushWindow` the master slot holds exactly the pushed
identifier, and the previously tracked identifiers keep their relative order:
the old stack is unchanged and the old master (when the slot was occupied) is
appended at the top of the stack. -/
theorem C4_push_guarantee (mw : Option Nat) (w : WindowId) (st : Model) :
    (pushWindow mw w st).1.masterId = w ∧
    (st.masterId = 0 → (pushWindow mw w st).1.stackIds = st.stackIds) ∧
    (st.masterId ≠ 0 →
      (pushWindow mw w st).1.stackIds = st.stackIds ++ [st.masterId]) := by
  obtain ⟨m, s⟩ := st
  by_cases hm : m = 0
  · subst hm
    simp [pushWindow]
  · by_cases hs : s = []
    · subst hs
      simp [pushWindow, hm]
    · simp [pushWindow, hm, hs]

/-- Witness for C4 at master = 1, empty stack, pushed identifier 2. -/
theorem C4_push_guarantee_witness :
    (pushWindow none 2 ⟨1, []⟩).1.masterId = 2 ∧
      (⟨1, []⟩ : Model).masterId ≠ 0 ∧
      (pushWindow none 2 ⟨1, []⟩).1.stackIds = [] ++ [1] :=
  ⟨(C4_push_guarantee none 2 ⟨1, []⟩).1, by decide,
    (C4_push_guarantee none 2 ⟨1, []⟩).2.2 (by decide)⟩

/-- C5: `moveUp` invoked with a focused window while the stack is empty
executes `stackIds.pop()` on an empty deque, an IndexError that escapes the
handler (result `none`); the claim that every failure path returns without
raising is contradicted by the code at this input. -/
theorem C5_moveUp_raises : moveUp (some 5) ⟨1, []⟩ = none := rfl

/-- C6 (counterexample): `rotateCCW` never consults the focused window, so
invoked with no window focused on master 3 and stack [1, 2] it still mutates
the model (to master 2, stack [3, 1]) and issues commands, contradicting the
claim that every navigation operation is a focus-requiring no-op. -/
theorem C6_counterexample :
    (rotateCCW ⟨3, [1, 2]⟩).1 ≠ ⟨3, [1, 2]⟩ ∧
      (rotateCCW ⟨3, [1, 2]⟩).2 ≠ [] := by decide

/-- C6 (amended): `moveUp`, `moveDown` and `swapMaster` are no-ops issuing no
commands when no window is focused; `rotateCCW` and `rotateCW` do not consult
the focused window at all. -/
theorem C6_no_focus_noop (st : Model) :
    moveUp none st = some (st, []) ∧ moveDown none st = (st, []) ∧
      swapMaster none st = (st, []) := by
  refine ⟨rfl, ?_, ?_⟩
  · unfold moveDown
    split <;> rfl
  · unfold swapMaster
    split <;> rfl

/-- C7: with at least two stack elements, `rotateCCW` followed by `rotateCW`
restores the master identifier and the stack identifiers in their original
order. -/
theorem C7_rotate_roundtrip (st : Model) (h : 2 ≤ st.stackIds.length) :
    (rotateCW (rotateCCW st).1).1 = st := by
  obtain ⟨m, s⟩ := st
  replace h : 2 ≤ s.length := h
  rcases List.eq_nil_or_concat s with rfl | ⟨ys, y, rfl⟩
  · simp at h
  · simp only [List.concat_eq_append] at h ⊢
    have hy : 1 ≤ ys.length := by
      simp only [List.length_append, List.length_cons, List.length_nil] at h
      omega
    have e1 : (rotateCCW ⟨m, ys ++ [y]⟩).1 = ⟨y, m :: ys⟩ := by
      unfold rotateCCW
      rw [if_neg (by simp only [List.length_append, List.length_cons,
        List.length_nil]; omega)]
      simp [List.getLastD_concat, List.dropLast_concat]
    have e2 : (rotateCW ⟨y, m :: ys⟩).1 = ⟨m, ys ++ [y]⟩ := by
      unfold rotateCW
      rw [if_neg (by simp only [List.length_cons]; omega)]
      simp
    rw [e1, e2]

/-- Witness for C7 at master = 3, stack = [1, 2]. -/
theorem C7_rotate_roundtrip_witness :
    2 ≤ (⟨3, [1, 2]⟩ : Model).stackIds.length ∧
      (rotateCW (rotateCCW ⟨3, [1, 2]⟩).1).1 = ⟨3, [1, 2]⟩ :=
  ⟨by decide, C7_rotate_roundtrip ⟨3, [1, 2]⟩ (by decide)⟩

/-- C8: on a workspace holding one nested container (identifier 5) with two
leaf children (a tiled leaf 10 and a floating leaf 11), the reconciliation
enumeration tests the parent's exclusion and collects the parent's identifier
once per child, yielding [5, 5] and folding window 5 into the model — whereas
the per-child enumeration the spec describes yields [10] (leaf 11 being
floating). -/
theorem C8_reconciliation_uses_parent :
    collectUntracked sampleLayout = [5, 5] ∧
    collectUntrackedSpec sampleLayout = [10] ∧
    (arrangeExistingLayout none none sampleLayout initialModel).1 = ⟨5, []⟩ :=
  ⟨by decide, by decide, by decide⟩

/-- C9 (counterexample): with master 2 focused and a stack of exactly one
element [1], `moveDown` returns without any change (its fewer-than-two-stack-
elements guard fires), contradicting the claim that the master is swapped
with the top of stack in this situation. -/
theorem C9_counterexample :
    moveDown (some 2) ⟨2, [1]⟩ = (⟨2, [1]⟩, []) ∧
      (⟨2, [1]⟩ : Model) ≠ ⟨1, [2]⟩ := by decide

/-- C9 (amended): `moveDown` with a focused window is a no-op when the stack
has fewer than two elements or the focused window is at the bottom of the
stack; with at least two stack elements it swaps a focused master with the
top of stack, and otherwise swaps the focused stack window with its neighbour
closer to the bottom. -/
theorem C9_moveDown_characterization (m w : WindowId) (s : List WindowId) :
    (s.length < 2 → moveDown (some w) ⟨m, s⟩ = (⟨m, s⟩, [])) ∧
    (2 ≤ s.length → w = s.headD 0 → moveDown (some w) ⟨m, s⟩ = (⟨m, s⟩, [])) ∧
    (∀ ys y, s = ys ++ [y] → 2 ≤ s.length → w ≠ s.headD 0 → w = m →
      moveDown (some w) ⟨m, s⟩ = (⟨y, ys ++ [w]⟩, [Cmd.swapWith w y])) ∧
    (∀ a x b, s = a ++ x :: w :: b → w ∉ a → w ≠ x → w ≠ m →
      moveDown (some w) ⟨m, s⟩ = (⟨m, a ++ w :: x :: b⟩, [Cmd.swapWith w x])) := by
  refine ⟨?_, ?_, ?_, ?_⟩
  · intro h
    unfold moveDown
    rw [if_pos h]
  · intro h hw
    have hc : ¬(s.length < 2) := by omega
    unfold moveDown
    rw [if_neg hc]
    dsimp only
    rw [if_pos hw]
  · intro ys y hs h2 hw hm
    subst hs
    have hc : ¬((ys ++ [y]).length < 2) := by omega
    unfold moveDown
    rw [if_neg hc]
    dsimp only
    rw [if_neg hw, if_pos hm]
    simp [List.getLastD_concat, List.dropLast_concat]
  · intro a x b hs ha hx hm
    subst hs
    have hlen : ¬((a ++ x :: w :: b).length < 2) := by
      simp only [List.length_append, List.length_cons]
      omega
    have hhead : ¬(w = (a ++ x :: w :: b).headD 0) := by
      cases a with
      | nil => simpa using hx
      | cons c t =>
        simp only [List.cons_append, List.headD_cons]
        intro hwc
        exact ha (by simp [hwc])
    unfold moveDown
    rw [if_neg hlen]
    dsimp only
    rw [if_neg hhead, if_neg hm]
    rw [moveDownLoop_concat w x b a ha hx]

/-- Witness for C9: master 3 focused over stack [1, 2] swaps with the top of
stack 2. -/
theorem C9_moveDown_characterization_witness :
    (3 : WindowId) = (⟨3, [1, 2]⟩ : Model).masterId ∧
      moveDown (some 3) ⟨3, [1, 2]⟩ = (⟨2, [1, 3]⟩, [Cmd.swapWith 3 2]) :=
  ⟨rfl, (C9_moveDown_characterization 3 3 [1, 2]).2.2.1 [1] 2 rfl (by decide)
    (by decide) rfl⟩

/-- C10: identifier 0 is the empty-master sentinel: pushing window 0 into the
empty model returns the empty model with no commands, any subsequently pushed
identifier behaves exactly as a first window (it becomes master, no commands
issued), so a window with identifier 0 is never tracked as a distinct master
occupant. -/
theorem C10_zero_sentinel (mw : Option Nat) :
    pushWindow mw 0 initialModel = (initialModel, []) ∧
    ∀ w, pushWindow mw w (pushWindow mw 0 initialModel).1 =
        pushWindow mw w initialModel ∧
      (pushWindow mw w initialModel).1.masterId = w ∧
      (pushWindow mw w initialModel).2 = [] :=
  ⟨rfl, fun _ => ⟨rfl, rfl, rfl⟩⟩

end Swlm
